import Mathlib

/-!
Verification of the retrieval subsystem of the OBS book-search service.

The Python sources embedded here:
* `src/tree_search.py` — `ContextTree`, `TreeSearcher`, `SemanticChapterSearcher`
* `src/vector_store.py` — `VectorStore` (hybrid semantic + keyword search)
* `src/handlers.py`   — the result-escalation logic of `handle_message`
* `src/llm.py`        — `LLMClient.understand_query`

Modelling conventions:
* Python strings are `List Char` (named `Str` below); `str.lower` is mapped
  over the characters and handles the Latin and Cyrillic ranges that the
  corpus uses, exactly as Python's `str.lower` does on those ranges.
* Python float scores are modelled as rationals (`ℚ`); every constant in the
  sources (0.5, 1.5, 0.2, 3.0, …) is an exact rational.
* Python dicts that are only ever filled by loops are modelled as
  association lists in insertion order; Python `set` iteration order is
  unspecified in the source, so a fixed enumeration order is chosen where
  the source iterates a set.
* Calls to external oracles (LLM, Voyage embeddings, ChromaDB) are
  parameters of the embedded functions: an oracle outcome value is passed
  in, covering both success and failure outcomes.
-/

/-- Python strings, as lists of characters. -/
abbrev Str := List Char

/-- `str.lower` for one character: ASCII `A`–`Z`, Cyrillic `А`–`Я` and `Ё`
(the ranges occurring in this corpus), everything else unchanged. -/
def lowerChar (c : Char) : Char :=
  if 65 ≤ c.toNat && c.toNat ≤ 90 then Char.ofNat (c.toNat + 32)
  else if 0x410 ≤ c.toNat && c.toNat ≤ 0x42F then Char.ofNat (c.toNat + 32)
  else if c.toNat == 0x401 then Char.ofNat 0x451
  else c

/-- `str.lower`, characterwise. -/
def lowerStr (s : Str) : Str := s.map lowerChar

/-- Python `pat in t` (substring containment). -/
def strContains : Str → Str → Bool
  | [], pat => pat.isEmpty
  | c :: cs, pat => pat.isPrefixOf (c :: cs) || strContains cs pat

/-- Recursion core of Python `t.count(pat)` for non-empty `pat`:
non-overlapping occurrence count, scanning left to right. -/
def occCountGo (pat : Str) : Str → Nat
  | [] => 0
  | c :: cs =>
      if pat.isPrefixOf (c :: cs) then 1 + occCountGo pat (cs.drop (pat.length - 1))
      else occCountGo pat cs
termination_by t => t.length
decreasing_by
· simp only [List.length_drop, List.length_cons]
  omega
· simp only [List.length_cons]
  omega

/-- Python `t.count(pat)` (`"".count("") = 1`, `"ab".count("") = 3`). -/
def occCount (t pat : Str) : Nat :=
  if pat.isEmpty then t.length + 1 else occCountGo pat t

/- ### Corpus data model (`ContextTree._chunk_index` entries)

Each entry of `_chunk_index` is the chunk dict enriched with the
denormalized ancestor fields (`_build_indexes` in `tree_search.py`). -/

/-- One entry of `ContextTree._chunk_index`. -/
structure ChunkRec where
  id : Str
  text : Str
  keywords : List Str
  book_title : Str
  chapter_id : Str
  chapter_title : Str
  chapter_summary : Str
  section_id : Str
  section_title : Str
deriving DecidableEq

/-- The `SearchResult` dataclass of `tree_search.py`. -/
structure SearchResult where
  chunk_id : Str
  text : Str
  score : ℚ
  book_title : Str
  chapter_title : Str
  chapter_summary : Str
  section_title : Str
  keywords : List Str
deriving DecidableEq

/- ### Chunk scoring loop of `TreeSearcher.search` (tree_search.py 287–329)

The loop body accumulates `score` over the priority keywords (weight ×3)
and then over the secondary (`other`) keywords (weight ×1). -/

/-- One iteration of the `for kw in priority_keywords` loop:
`+15` section title, `+9` chapter title, `+count*3.0` text, `+1.5` tag. -/
def priorityKwStep (textLower sectionLower chapterLower : Str)
    (chunkKeywords : List Str) (score : ℚ) (kw : Str) : ℚ :=
  let s1 := if strContains sectionLower kw then score + 15 else score
  let s2 := if strContains chapterLower kw then s1 + 9 else s1
  let s3 := if strContains textLower kw then s2 + (occCount textLower kw : ℚ) * 3 else s2
  if chunkKeywords.contains kw then s3 + 3/2 else s3

/-- One iteration of the `for kw in other_keywords` loop:
`+5` section title, `+3` chapter title, `+count*1.0` text, `+0.5` tag. -/
def secondaryKwStep (textLower sectionLower chapterLower : Str)
    (chunkKeywords : List Str) (score : ℚ) (kw : Str) : ℚ :=
  let s1 := if strContains sectionLower kw then score + 5 else score
  let s2 := if strContains chapterLower kw then s1 + 3 else s1
  let s3 := if strContains textLower kw then s2 + (occCount textLower kw : ℚ) * 1 else s2
  if chunkKeywords.contains kw then s3 + 1/2 else s3

/-- The chunk score computed by the scoring loop of `TreeSearcher.search`
for one chunk, given the priority keywords `P` (from the user's question)
and the secondary keywords `S` (proposed by the LLM). -/
def chunkScoreCode (P S : List Str) (c : ChunkRec) : ℚ :=
  let textLower := lowerStr c.text
  let sectionLower := lowerStr c.section_title
  let chapterLower := lowerStr c.chapter_title
  let chunkKeywords := c.keywords.map lowerStr
  S.foldl (secondaryKwStep textLower sectionLower chapterLower chunkKeywords)
    (P.foldl (priorityKwStep textLower sectionLower chapterLower chunkKeywords) 0)

/- ### The claim-side score formula (spec §4.2, chunk level)

Written from the specification's words: per priority keyword +15 / +9 /
+3×count / +1.5, secondary keywords the same positions divided by 3, all
positional matches case-insensitive substring matches, the tag bonus a
case-insensitive equality with a stored keyword tag. -/

/-- Spec-side contribution of a single priority keyword. -/
def priorityKwSpec (c : ChunkRec) (kw : Str) : ℚ :=
  (if strContains (lowerStr c.section_title) (lowerStr kw) then 15 else 0)
  + (if strContains (lowerStr c.chapter_title) (lowerStr kw) then 9 else 0)
  + (if strContains (lowerStr c.text) (lowerStr kw) then
       3 * (occCount (lowerStr c.text) (lowerStr kw) : ℚ) else 0)
  + (if (c.keywords.map lowerStr).contains (lowerStr kw) then 3/2 else 0)

/-- Spec-side contribution of a single secondary keyword. -/
def secondaryKwSpec (c : ChunkRec) (kw : Str) : ℚ :=
  (if strContains (lowerStr c.section_title) (lowerStr kw) then 5 else 0)
  + (if strContains (lowerStr c.chapter_title) (lowerStr kw) then 3 else 0)
  + (if strContains (lowerStr c.text) (lowerStr kw) then
       1 * (occCount (lowerStr c.text) (lowerStr kw) : ℚ) else 0)
  + (if (c.keywords.map lowerStr).contains (lowerStr kw) then 1/2 else 0)

lemma priorityKwStep_eq_add (t s ch : Str) (ks : List Str) (acc : ℚ) (kw : Str) :
    priorityKwStep t s ch ks acc kw =
      acc + ((if strContains s kw then 15 else 0)
        + (if strContains ch kw then 9 else 0)
        + (if strContains t kw then 3 * (occCount t kw : ℚ) else 0)
        + (if ks.contains kw then 3/2 else 0)) := by
  simp only [priorityKwStep]
  split <;> split <;> split <;> split <;> ring

lemma secondaryKwStep_eq_add (t s ch : Str) (ks : List Str) (acc : ℚ) (kw : Str) :
    secondaryKwStep t s ch ks acc kw =
      acc + ((if strContains s kw then 5 else 0)
        + (if strContains ch kw then 3 else 0)
        + (if strContains t kw then 1 * (occCount t kw : ℚ) else 0)
        + (if ks.contains kw then 1/2 else 0)) := by
  simp only [secondaryKwStep]
  split <;> split <;> split <;> split <;> ring

lemma foldl_add_shift (f : ℚ → Str → ℚ) (g : Str → ℚ)
    (hf : ∀ acc kw, f acc kw = acc + g kw) (l : List Str) (init : ℚ) :
    l.foldl f init = init + (l.map g).sum := by
  induction l generalizing init with
  | nil => simp
  | cons kw rest ih =>
      simp only [List.foldl_cons, List.map_cons, List.sum_cons, hf]
      rw [ih]
      ring

/- ### Stable descending sort

`list.sort(key=..., reverse=True)` in Python is a stable sort placing
larger keys first.  `List.insertionSort` with the relation
`fun a b => key b ≤ key a` is also a stable descending sort, hence computes
the same list. -/

instance decRelKeyDesc {α : Type} (key : α → ℚ) :
    DecidableRel (fun a b : α => key b ≤ key a) :=
  fun a b => inferInstanceAs (Decidable (key b ≤ key a))

instance isTotalKeyDesc {α : Type} (key : α → ℚ) :
    IsTotal α (fun a b => key b ≤ key a) :=
  ⟨fun a b => le_total (key b) (key a)⟩

instance isTransKeyDesc {α : Type} (key : α → ℚ) :
    IsTrans α (fun a b => key b ≤ key a) :=
  ⟨fun _ _ _ h1 h2 => le_trans h2 h1⟩

/-- `list.sort(key=key, reverse=True)`. -/
def sortByKeyDesc {α : Type} (key : α → ℚ) (l : List α) : List α :=
  l.insertionSort (fun a b => key b ≤ key a)

lemma sortByKeyDesc_perm {α : Type} (key : α → ℚ) (l : List α) :
    (sortByKeyDesc key l).Perm l :=
  List.perm_insertionSort _ l

lemma sortByKeyDesc_sorted {α : Type} (key : α → ℚ) (l : List α) :
    (sortByKeyDesc key l).Sorted (fun a b => key b ≤ key a) :=
  List.sorted_insertionSort _ l

lemma filter_orderedInsert_of_not {α : Type} (key : α → ℚ) (p : α → Bool) (a : α)
    (l : List α) (hpa : p a = false) :
    (List.orderedInsert (fun x y => key y ≤ key x) a l).filter p = l.filter p := by
  induction l with
  | nil => simp [hpa]
  | cons b l ih =>
      by_cases hr : key b ≤ key a
      · simp [List.orderedInsert, hr, hpa]
      · by_cases hpb : p b = true
        · simp [List.orderedInsert, hr, hpb, ih]
        · simp only [Bool.not_eq_true] at hpb
          simp [List.orderedInsert, hr, hpb, ih]

lemma filter_orderedInsert_of_eq {α : Type} (key : α → ℚ) (q : ℚ) (a : α)
    (l : List α) (ha : key a = q)
    (hsort : l.Sorted (fun x y => key y ≤ key x)) :
    (List.orderedInsert (fun x y => key y ≤ key x) a l).filter (fun x => key x == q)
      = a :: l.filter (fun x => key x == q) := by
  subst ha
  induction l with
  | nil => simp
  | cons b l ih =>
      by_cases hr : key b ≤ key a
      · simp [List.orderedInsert, hr]
      · have hbq : (key b == key a) = false := by
          simp only [beq_eq_false_iff_ne, ne_eq]
          intro hbqq
          exact hr hbqq.le
        simp only [List.orderedInsert, if_neg hr, List.filter_cons, hbq,
          Bool.false_eq_true, if_false]
        exact ih hsort.of_cons

/-- Stability of the descending sort: the elements of any fixed key class
appear in the sorted output in their original relative order. -/
lemma filter_sortByKeyDesc {α : Type} (key : α → ℚ) (q : ℚ) (l : List α) :
    (sortByKeyDesc key l).filter (fun x => key x == q) = l.filter (fun x => key x == q) := by
  induction l with
  | nil => rfl
  | cons x l ih =>
      show (List.orderedInsert _ x (sortByKeyDesc key l)).filter _ = _
      by_cases hx : key x = q
      · rw [filter_orderedInsert_of_eq key q x _ hx (sortByKeyDesc_sorted key l), ih,
          List.filter_cons]
        simp [hx]
      · have hpx : (key x == q) = false := by simpa using hx
        rw [filter_orderedInsert_of_not key _ x _ hpx, ih, List.filter_cons, hpx]
        simp

/- ### Result selection of `TreeSearcher.search` (tree_search.py 334–348)

The loop takes the score-sorted chunks, keeps a per-chapter-title counter
dict `chapters_count`, appends a chunk only while its chapter's counter is
below 2, and stops when `top_chunks` results are collected. -/

/-- `chapters_count.get(ch, 0)`. -/
def lookupCount (m : List (Str × Nat)) (k : Str) : Nat :=
  match m.find? (fun p => p.1 == k) with
  | some p => p.2
  | none => 0

/-- `chapters_count[ch] = chapters_count.get(ch, 0) + 1` (dict update keeps
the key's position; a new key is appended). -/
def bumpCount : List (Str × Nat) → Str → List (Str × Nat)
  | [], k => [(k, 1)]
  | p :: rest, k => if p.1 == k then (p.1, p.2 + 1) :: rest else p :: bumpCount rest k

/-- The selection loop of `TreeSearcher.search`. -/
def selectLoop (topChunks : Nat) :
    List SearchResult → List SearchResult → List (Str × Nat) → List SearchResult
  | [], result, _ => result
  | chunk :: rest, result, counts =>
    if topChunks ≤ result.length then result
    else if lookupCount counts chunk.chapter_title < 2 then
      selectLoop topChunks rest (result ++ [chunk]) (bumpCount counts chunk.chapter_title)
    else
      selectLoop topChunks rest result counts

/-- Construction of a `SearchResult` from a chunk-index entry
(tree_search.py 320–329). -/
def mkSearchResult (c : ChunkRec) (score : ℚ) : SearchResult :=
  ⟨c.id, c.text, score, c.book_title, c.chapter_title, c.chapter_summary,
   c.section_title, c.keywords⟩

/-- The `all_chunks` accumulation of `TreeSearcher.search`: every chunk of
the index with a positive score, in index order. -/
def scoreChunks (P S : List Str) (idx : List ChunkRec) : List SearchResult :=
  idx.filterMap fun c =>
    if 0 < chunkScoreCode P S c then some (mkSearchResult c (chunkScoreCode P S c)) else none

/-- `TreeSearcher.search` from the chunk-scoring stage on, given the
priority keyword set `P` (question words) and secondary keyword set `S`
(LLM-proposed words): score all chunks, sort by score descending (stable),
then select at most `topChunks` results with at most 2 per chapter title. -/
def treeSearch (P S : List Str) (idx : List ChunkRec) (topChunks : Nat) :
    List SearchResult :=
  selectLoop topChunks (sortByKeyDesc SearchResult.score (scoreChunks P S idx)) [] []

/- ### Helper lemmas about the selection loop -/

lemma lookupCount_nil (k : Str) : lookupCount [] k = 0 := rfl

lemma lookupCount_bumpCount_self (m : List (Str × Nat)) (k : Str) :
    lookupCount (bumpCount m k) k = lookupCount m k + 1 := by
  induction m with
  | nil => simp [bumpCount, lookupCount]
  | cons p rest ih =>
      by_cases hk : p.1 == k
      · simp [bumpCount, hk, lookupCount, List.find?_cons, hk]
      · simp only [bumpCount, hk, Bool.false_eq_true, if_false]
        simp only [lookupCount, List.find?_cons, hk] at ih ⊢
        exact ih

lemma lookupCount_bumpCount_ne (m : List (Str × Nat)) (k k' : Str) (h : ¬k' = k) :
    lookupCount (bumpCount m k) k' = lookupCount m k' := by
  induction m with
  | nil =>
      have : (k == k') = false := by simpa using fun hh => h hh.symm
      simp [bumpCount, lookupCount, List.find?_cons, this]
  | cons p rest ih =>
      by_cases hk : p.1 == k
      · have hp : p.1 = k := by simpa using hk
        have hkk' : (k == k') = false := by simpa using fun hh => h hh.symm
        simp [bumpCount, hk, lookupCount, List.find?_cons, hp, hkk']
      · simp only [bumpCount, hk, Bool.false_eq_true, if_false]
        by_cases hk' : p.1 == k'
        · simp [lookupCount, List.find?_cons, hk']
        · simp only [lookupCount, List.find?_cons, hk', Bool.false_eq_true] at ih ⊢
          exact ih

lemma selectLoop_count_le (n : Nat) :
    ∀ (l result : List SearchResult) (counts : List (Str × Nat)),
      (∀ t, (result.filter (fun r => r.chapter_title == t)).length = lookupCount counts t) →
      (∀ t, lookupCount counts t ≤ 2) →
      ∀ t, ((selectLoop n l result counts).filter (fun r => r.chapter_title == t)).length ≤ 2 := by
  intro l
  induction l with
  | nil =>
      intro result counts hinv hle t
      rw [selectLoop, hinv t]
      exact hle t
  | cons chunk rest ih =>
      intro result counts hinv hle t
      rw [selectLoop]
      by_cases hfull : n ≤ result.length
      · rw [if_pos hfull, hinv t]
        exact hle t
      · rw [if_neg hfull]
        by_cases hcap : lookupCount counts chunk.chapter_title < 2
        · rw [if_pos hcap]
          refine ih (result ++ [chunk]) (bumpCount counts chunk.chapter_title) ?_ ?_ t
          · intro t'
            rw [List.filter_append, List.length_append]
            by_cases hch : chunk.chapter_title = t'
            · have hbeq : (chunk.chapter_title == t') = true := by simpa using hch
              rw [← hch, lookupCount_bumpCount_self, ← hinv chunk.chapter_title]
              simp [hbeq, hch]
            · have hbeq : (chunk.chapter_title == t') = false := by simpa using hch
              rw [lookupCount_bumpCount_ne counts _ t' (fun hh => hch hh.symm), ← hinv t']
              simp [hbeq]
          · intro t'
            by_cases hch : t' = chunk.chapter_title
            · rw [hch, lookupCount_bumpCount_self]
              omega
            · rw [lookupCount_bumpCount_ne counts _ t' hch]
              exact hle t'
        · rw [if_neg hcap]
          exact ih result counts hinv hle t

lemma selectLoop_eq_append (n : Nat) :
    ∀ (l result : List SearchResult) (counts : List (Str × Nat)),
      ∃ s, selectLoop n l result counts = result ++ s ∧ s.Sublist l := by
  intro l
  induction l with
  | nil =>
      intro result counts
      exact ⟨[], by simp [selectLoop], List.Sublist.refl _⟩
  | cons chunk rest ih =>
      intro result counts
      rw [selectLoop]
      by_cases hfull : n ≤ result.length
      · exact ⟨[], by simp [hfull], List.nil_sublist _⟩
      · rw [if_neg hfull]
        by_cases hcap : lookupCount counts chunk.chapter_title < 2
        · rw [if_pos hcap]
          obtain ⟨s, hs, hsub⟩ := ih (result ++ [chunk]) (bumpCount counts chunk.chapter_title)
          refine ⟨chunk :: s, ?_, List.Sublist.cons₂ _ hsub⟩
          rw [hs, List.append_assoc]
          rfl
        · rw [if_neg hcap]
          obtain ⟨s, hs, hsub⟩ := ih result counts
          exact ⟨s, hs, List.Sublist.cons _ hsub⟩

lemma mem_scoreChunks {P S : List Str} {idx : List ChunkRec} {r : SearchResult}
    (h : r ∈ scoreChunks P S idx) :
    ∃ c ∈ idx, r = mkSearchResult c (chunkScoreCode P S c) := by
  simp only [scoreChunks, List.mem_filterMap] at h
  obtain ⟨c, hc, heq⟩ := h
  by_cases hpos : 0 < chunkScoreCode P S c
  · rw [if_pos hpos] at heq
    exact ⟨c, hc, (Option.some_inj.mp heq).symm⟩
  · rw [if_neg hpos] at heq
    exact absurd heq (by simp)

lemma treeSearch_mem_source {P S : List Str} {idx : List ChunkRec} {n : Nat}
    {r : SearchResult} (h : r ∈ treeSearch P S idx n) :
    ∃ c ∈ idx, r = mkSearchResult c (chunkScoreCode P S c) := by
  obtain ⟨s, hs, hsub⟩ :=
    selectLoop_eq_append n (sortByKeyDesc SearchResult.score (scoreChunks P S idx)) [] []
  rw [treeSearch, hs, List.nil_append] at h
  have h2 : r ∈ sortByKeyDesc SearchResult.score (scoreChunks P S idx) := hsub.subset h
  exact mem_scoreChunks ((sortByKeyDesc_perm _ _).subset h2)

lemma scoreChunks_ids_sublist (P S : List Str) (idx : List ChunkRec) :
    ((scoreChunks P S idx).map SearchResult.chunk_id).Sublist (idx.map ChunkRec.id) := by
  induction idx with
  | nil => simp [scoreChunks]
  | cons c idx ih =>
      simp only [scoreChunks, List.filterMap_cons, List.map_cons]
      by_cases hpos : 0 < chunkScoreCode P S c
      · rw [if_pos hpos]
        simp only [List.map_cons]
        exact List.Sublist.cons₂ _ ih
      · rw [if_neg hpos]
        exact List.Sublist.cons _ ih

lemma filter_length_mono {α : Type} (l : List α) (p q : α → Bool)
    (h : ∀ x ∈ l, p x = true → q x = true) :
    (l.filter p).length ≤ (l.filter q).length := by
  induction l with
  | nil => simp
  | cons x l ih =>
      have ihl := ih (fun y hy hpy => h y (List.mem_cons_of_mem x hy) hpy)
      simp only [List.filter_cons]
      by_cases hp : p x = true
      · rw [if_pos hp, if_pos (h x (List.mem_cons_self x l) hp)]
        simpa using ihl
      · rw [if_neg hp]
        by_cases hq : q x = true
        · rw [if_pos hq]
          exact le_trans ihl (by simp)
        · rw [if_neg hq]
          exact ihl

/-- The per-chapter-title cap enforced by the selection loop. -/
lemma treeSearch_title_cap (P S : List Str) (idx : List ChunkRec) (n : Nat) (t : Str) :
    ((treeSearch P S idx n).filter (fun r => r.chapter_title == t)).length ≤ 2 := by
  refine selectLoop_count_le n _ [] [] ?_ ?_ t
  · intro t'
    rfl
  · intro t'
    exact Nat.zero_le 2

/- ### Claim theorems for `TreeSearcher.search` -/

/-- C1: for every chunk and every keyword set split into priority keywords
(from the user's question) and secondary keywords (proposed by the oracle),
the chunk-level score computed by `TreeSearcher.search` equals the sum over
priority keywords of +15 (section title) / +9 (chapter title) /
+3×occurrence-count (chunk text) / +1.5 (stored keyword tag), plus the sum
over secondary keywords of the same bonuses divided by 3 (+5, +3, +1×count,
+0.5), matches being case-insensitive (the pipeline hands the scoring loop
lowercased keywords, which the hypotheses record). -/
theorem chunkScore_eq_claim_sum (P S : List Str) (c : ChunkRec)
    (hP : ∀ kw ∈ P, lowerStr kw = kw) (hS : ∀ kw ∈ S, lowerStr kw = kw) :
    chunkScoreCode P S c
      = (P.map (priorityKwSpec c)).sum + (S.map (secondaryKwSpec c)).sum := by
  simp only [chunkScoreCode]
  rw [foldl_add_shift _ _
      (priorityKwStep_eq_add (lowerStr c.text) (lowerStr c.section_title)
        (lowerStr c.chapter_title) (c.keywords.map lowerStr)),
    foldl_add_shift _ _
      (secondaryKwStep_eq_add (lowerStr c.text) (lowerStr c.section_title)
        (lowerStr c.chapter_title) (c.keywords.map lowerStr)),
    zero_add]
  congr 1
  · refine congrArg List.sum (List.map_congr_left ?_)
    intro kw hkw
    simp only [priorityKwSpec, hP kw hkw]
  · refine congrArg List.sum (List.map_congr_left ?_)
    intro kw hkw
    simp only [secondaryKwSpec, hS kw hkw]

theorem chunkScore_eq_claim_sum_witness :
    (∀ kw ∈ ["лидер".toList], lowerStr kw = kw) ∧
    (∀ kw ∈ ["команда".toList], lowerStr kw = kw) ∧
    chunkScoreCode ["лидер".toList] ["команда".toList]
        ⟨"c1".toList, "Лидер ведёт команду. Лидер решает.".toList,
         ["лидер".toList], "Книга".toList, "ch1".toList,
         "Глава о лидерах".toList, "Резюме".toList, "s1".toList,
         "Лидер и команда".toList⟩
      = ((["лидер".toList].map (priorityKwSpec
            ⟨"c1".toList, "Лидер ведёт команду. Лидер решает.".toList,
             ["лидер".toList], "Книга".toList, "ch1".toList,
             "Глава о лидерах".toList, "Резюме".toList, "s1".toList,
             "Лидер и команда".toList⟩)).sum
        + (["команда".toList].map (secondaryKwSpec
            ⟨"c1".toList, "Лидер ведёт команду. Лидер решает.".toList,
             ["лидер".toList], "Книга".toList, "ch1".toList,
             "Глава о лидерах".toList, "Резюме".toList, "s1".toList,
             "Лидер и команда".toList⟩)).sum) :=
  ⟨by decide, by decide,
   chunkScore_eq_claim_sum _ _ _ (by decide) (by decide)⟩

/-- C2: in every invocation of `TreeSearcher.search`, no chapter contributes
more than 2 chunks to the returned result list; since the bound holds for
every chapter unconditionally, a chapter's 3rd-best positively-scored chunk
is never selected regardless of its raw score. -/
theorem treeSearch_two_per_chapter (P S : List Str) (idx : List ChunkRec)
    (n : Nat) (t : Str) :
    ((treeSearch P S idx n).filter (fun r => r.chapter_title == t)).length ≤ 2 :=
  treeSearch_title_cap P S idx n t

/-- C8: with the corpus snapshot and the keyword sets fixed (the
query-understanding oracle bypassed), two invocations of
`TreeSearcher.search` return identical ordered result sequences — the
search pipeline from scoring to selection contains no hidden randomness. -/
theorem treeSearch_deterministic (P1 S1 P2 S2 : List Str)
    (idx1 idx2 : List ChunkRec) (n1 n2 : Nat)
    (hP : P1 = P2) (hS : S1 = S2) (hidx : idx1 = idx2) (hn : n1 = n2) :
    treeSearch P1 S1 idx1 n1 = treeSearch P2 S2 idx2 n2 := by
  subst hP hS hidx hn
  rfl

theorem treeSearch_deterministic_witness :
    treeSearch ["aa".toList] [] [⟨"c1".toList, "aa bb".toList, [], "b".toList,
        "x".toList, "глава".toList, "s".toList, "s1".toList, "sec".toList⟩] 5
      = treeSearch ["aa".toList] [] [⟨"c1".toList, "aa bb".toList, [], "b".toList,
        "x".toList, "глава".toList, "s".toList, "s1".toList, "sec".toList⟩] 5 :=
  treeSearch_deterministic _ _ _ _ _ _ _ _ rfl rfl rfl rfl

/-- C9: the per-chapter diversity cap of `TreeSearcher.search` is keyed by
chapter title, not chapter id: whenever two distinct chapter ids share one
title, the chunks of both chapters together contribute at most 2 results,
sharing a single cap budget. -/
theorem treeSearch_cap_keyed_by_title (P S : List Str) (idx : List ChunkRec)
    (n : Nat) (id1 id2 t : Str) (_hne : id1 ≠ id2)
    (hids : (idx.map ChunkRec.id).Nodup)
    (htitle : ∀ c ∈ idx, (c.chapter_id = id1 ∨ c.chapter_id = id2) → c.chapter_title = t) :
    ((treeSearch P S idx n).filter
        (fun r => idx.any (fun c => c.id == r.chunk_id
            && (c.chapter_id == id1 || c.chapter_id == id2)))).length ≤ 2 := by
  refine le_trans (filter_length_mono _ _ (fun r => r.chapter_title == t) ?_)
    (treeSearch_title_cap P S idx n t)
  intro r hr hp
  obtain ⟨c0, hc0, rfl⟩ := treeSearch_mem_source hr
  simp only [List.any_eq_true, Bool.and_eq_true, Bool.or_eq_true, beq_iff_eq] at hp
  obtain ⟨c, hc, hcid, hch⟩ := hp
  have hcc0 : c = c0 := List.inj_on_of_nodup_map hids hc hc0 hcid
  subst hcc0
  have := htitle c hc hch
  simpa [mkSearchResult] using this

/-- Concrete three-chunk corpus with two distinct chapter ids `"a"`, `"b"`
sharing the chapter title `"tt"`. -/
def sharedTitleIdx : List ChunkRec :=
  [⟨"c1".toList, "aa bb".toList, [], "bk".toList, "a".toList, "tt".toList,
    "s".toList, "s1".toList, "sec".toList⟩,
   ⟨"c2".toList, "aa cc".toList, [], "bk".toList, "b".toList, "tt".toList,
    "s".toList, "s2".toList, "sec".toList⟩,
   ⟨"c3".toList, "aa dd".toList, [], "bk".toList, "b".toList, "tt".toList,
    "s".toList, "s3".toList, "sec".toList⟩]

theorem treeSearch_cap_keyed_by_title_witness :
    ("a".toList ≠ "b".toList) ∧
    ((sharedTitleIdx.map ChunkRec.id).Nodup) ∧
    (∀ c ∈ sharedTitleIdx,
      (c.chapter_id = "a".toList ∨ c.chapter_id = "b".toList) →
        c.chapter_title = "tt".toList) ∧
    ((treeSearch ["aa".toList] [] sharedTitleIdx 9).filter
        (fun r => sharedTitleIdx.any (fun c => c.id == r.chunk_id
            && (c.chapter_id == "a".toList || c.chapter_id == "b".toList)))).length ≤ 2 :=
  ⟨by decide, by decide, by decide,
   treeSearch_cap_keyed_by_title ["aa".toList] [] sharedTitleIdx 9
     "a".toList "b".toList "tt".toList (by decide) (by decide) (by decide)⟩

/-- C10: every result list returned by `TreeSearcher.search` has pairwise
distinct chunk ids (the chunk index, a Python dict, has distinct keys, and
each key yields at most one `SearchResult`). -/
theorem treeSearch_distinct_chunk_ids (P S : List Str) (idx : List ChunkRec)
    (n : Nat) (hids : (idx.map ChunkRec.id).Nodup) :
    ((treeSearch P S idx n).map SearchResult.chunk_id).Nodup := by
  have h1 : ((scoreChunks P S idx).map SearchResult.chunk_id).Nodup :=
    (scoreChunks_ids_sublist P S idx).nodup hids
  have h2 : ((sortByKeyDesc SearchResult.score (scoreChunks P S idx)).map
      SearchResult.chunk_id).Nodup :=
    (List.Perm.nodup_iff ((sortByKeyDesc_perm SearchResult.score
      (scoreChunks P S idx)).map SearchResult.chunk_id)).mpr h1
  obtain ⟨s, hs, hsub⟩ :=
    selectLoop_eq_append n (sortByKeyDesc SearchResult.score (scoreChunks P S idx)) [] []
  rw [treeSearch, hs, List.nil_append]
  exact (hsub.map SearchResult.chunk_id).nodup h2

/-- Concrete two-chunk corpus with distinct chunk ids. -/
def twoChunkIdx : List ChunkRec :=
  [⟨"c1".toList, "aa bb".toList, [], "bk".toList, "x".toList, "t1".toList,
    "s".toList, "s1".toList, "sec".toList⟩,
   ⟨"c2".toList, "aa cc".toList, [], "bk".toList, "y".toList, "t2".toList,
    "s".toList, "s2".toList, "sec".toList⟩]

theorem treeSearch_distinct_chunk_ids_witness :
    ((twoChunkIdx.map ChunkRec.id).Nodup) ∧
    ((treeSearch ["aa".toList] [] twoChunkIdx 5).map SearchResult.chunk_id).Nodup :=
  ⟨by decide,
   treeSearch_distinct_chunk_ids ["aa".toList] [] twoChunkIdx 5 (by decide)⟩

/- ### Chapter-level search: `ContextTree.search_chapters_by_keywords`
(tree_search.py 129–160) -/

/-- One entry of `ContextTree._chapter_index` (chapter dict plus the
denormalized book title). -/
structure ChapterRec where
  id : Str
  number : Nat
  title : Str
  summary : Str
  key_concepts : List Str
  book_title : Str
deriving DecidableEq

/-- One iteration of the `for kw in keywords` loop of
`search_chapters_by_keywords`: +3 title, +2 summary, +2 any key concept. -/
def chapterKwStep (titleLower summaryLower : Str) (concepts : List Str)
    (score : ℚ) (kw : Str) : ℚ :=
  let kwL := lowerStr kw
  let s1 := if strContains titleLower kwL then score + 3 else score
  let s2 := if strContains summaryLower kwL then s1 + 2 else s1
  if concepts.any (fun c => strContains c kwL) then s2 + 2 else s2

/-- The chapter relevance score computed by `search_chapters_by_keywords`. -/
def chapterScoreCode (kws : List Str) (ch : ChapterRec) : ℚ :=
  kws.foldl
    (chapterKwStep (lowerStr ch.title) (lowerStr ch.summary)
      (ch.key_concepts.map lowerStr)) 0

/-- The claim-side chapter score: summed per keyword, +3 if found in the
title, +2 if found in the summary, +2 if found in any key concept,
case-insensitive substring matches. -/
def chapterScoreSpec (kws : List Str) (ch : ChapterRec) : ℚ :=
  (kws.map fun kw =>
    (if strContains (lowerStr ch.title) (lowerStr kw) then 3 else 0)
    + (if strContains (lowerStr ch.summary) (lowerStr kw) then 2 else 0)
    + (if (ch.key_concepts.map lowerStr).any
          (fun c => strContains c (lowerStr kw)) then 2 else 0)).sum

/-- `ContextTree.search_chapters_by_keywords`: score each chapter of the
index in insertion order, keep the positively scored ones, sort by
relevance score descending (Python's stable sort). -/
def search_chapters_by_keywords (kws : List Str) (chapters : List ChapterRec) :
    List (ChapterRec × ℚ) :=
  sortByKeyDesc Prod.snd
    (chapters.filterMap fun ch =>
      if 0 < chapterScoreCode kws ch then some (ch, chapterScoreCode kws ch) else none)

lemma chapterKwStep_eq_add (tl sl : Str) (cs : List Str) (acc : ℚ) (kw : Str) :
    chapterKwStep tl sl cs acc kw =
      acc + ((if strContains tl (lowerStr kw) then 3 else 0)
        + (if strContains sl (lowerStr kw) then 2 else 0)
        + (if cs.any (fun c => strContains c (lowerStr kw)) then 2 else 0)) := by
  simp only [chapterKwStep]
  split <;> split <;> split <;> ring

/-- C7: the chapter score of `search_chapters_by_keywords` equals the
claim's per-keyword sum (+3 title, +2 summary, +2 any key concept,
case-insensitive substring matches); exactly the chapters with positive
score appear in the output; and chapters with equal scores appear in their
insertion order (the sort is stable). -/
theorem chapterSearch_score_and_order (kws : List Str) (chapters : List ChapterRec) :
    (∀ ch, chapterScoreCode kws ch = chapterScoreSpec kws ch) ∧
    (∀ p ∈ search_chapters_by_keywords kws chapters, 0 < p.2) ∧
    (∀ ch ∈ chapters, 0 < chapterScoreCode kws ch →
      (ch, chapterScoreCode kws ch) ∈ search_chapters_by_keywords kws chapters) ∧
    (∀ q : ℚ,
      (search_chapters_by_keywords kws chapters).filter (fun p => p.2 == q)
        = (chapters.filterMap fun ch =>
            if 0 < chapterScoreCode kws ch then some (ch, chapterScoreCode kws ch)
            else none).filter (fun p => p.2 == q)) := by
  refine ⟨?_, ?_, ?_, ?_⟩
  · intro ch
    simp only [chapterScoreCode, chapterScoreSpec]
    rw [foldl_add_shift _ _
        (chapterKwStep_eq_add (lowerStr ch.title) (lowerStr ch.summary)
          (ch.key_concepts.map lowerStr)),
      zero_add]
  · intro p hp
    have hmem := (sortByKeyDesc_perm Prod.snd _).subset hp
    simp only [List.mem_filterMap] at hmem
    obtain ⟨ch, _, heq⟩ := hmem
    by_cases hpos : 0 < chapterScoreCode kws ch
    · rw [if_pos hpos] at heq
      have : (ch, chapterScoreCode kws ch) = p := Option.some_inj.mp heq
      rw [← this]
      exact hpos
    · rw [if_neg hpos] at heq
      exact absurd heq (by simp)
  · intro ch hch hpos
    refine ((sortByKeyDesc_perm Prod.snd _).mem_iff).mpr ?_
    simp only [List.mem_filterMap]
    exact ⟨ch, hch, by rw [if_pos hpos]⟩
  · intro q
    exact filter_sortByKeyDesc Prod.snd q _

/-- Concrete chapter whose title contains the keyword. -/
def motivChapter : ChapterRec :=
  ⟨"ch1".toList, 1, "Мотивация персонала".toList, "О мотивации".toList,
   ["стимулы".toList], "Книга".toList⟩

theorem chapterSearch_score_and_order_witness :
    (0:ℚ) < chapterScoreCode ["мотивация".toList] motivChapter ∧
    (motivChapter, chapterScoreCode ["мотивация".toList] motivChapter)
      ∈ search_chapters_by_keywords ["мотивация".toList] [motivChapter] := by
  have hpos : (0:ℚ) < chapterScoreCode ["мотивация".toList] motivChapter := by
    rw [show chapterScoreCode ["мотивация".toList] motivChapter = 0 + 3 from rfl]
    norm_num
  exact ⟨hpos,
    (chapterSearch_score_and_order ["мотивация".toList] [motivChapter]).2.2.1
      motivChapter (List.mem_singleton.mpr rfl) hpos⟩

/- ### Result escalation: `handle_message` quality gate (handlers.py 132–173)

`check_keyword_match` extracts the significant words of the question with
`re.findall(r'[а-яёa-z]{5,}', query.lower())` minus a stop list, joins the
chunk texts (lowercased) with spaces, counts how many significant words
occur as substrings, and passes iff the ratio is strictly above 0.5.
The direct results are accepted iff `has_good_score and has_keyword_match`. -/

/-- Membership in the regex character class `[а-яёa-z]`. -/
def isWordChar (c : Char) : Bool :=
  (97 ≤ c.toNat && c.toNat ≤ 122)
  || (0x430 ≤ c.toNat && c.toNat ≤ 0x44F)
  || c.toNat == 0x451

/-- Splits a string into its maximal runs of `isWordChar` characters
(the matches of `[а-яёa-z]+`); `acc` holds the current run reversed. -/
def splitRunsAux : Str → Str → List Str
  | [], acc => if acc.isEmpty then [] else [acc.reverse]
  | c :: cs, acc =>
    if isWordChar c then splitRunsAux cs (c :: acc)
    else if acc.isEmpty then splitRunsAux cs []
    else acc.reverse :: splitRunsAux cs []

/-- The maximal `[а-яёa-z]` runs of a string. -/
def splitRuns (s : Str) : List Str := splitRunsAux s []

/-- `re.findall(r'[а-яёa-z]{5,}', s.lower())`: the maximal letter runs of
the lowercased string that are at least 5 characters long. -/
def findallLong (s : Str) : List Str :=
  (splitRuns (lowerStr s)).filter (fun r => 5 ≤ r.length)

/-- The stop list of `check_keyword_match`. -/
def hmStop : List Str :=
  ["найди".toList, "покажи".toList, "расскажи".toList, "модель".toList,
   "какой".toList, "какая".toList, "какие".toList, "который".toList]

/-- The question's significant words: words of more than 4 letters,
stop words removed. -/
def significantWords (query : Str) : List Str :=
  (findallLong query).filter (fun w => !hmStop.contains w)

/-- A chunk as seen by the escalation gate: its text and its score. -/
structure RetChunk where
  text : Str
  score : ℚ
deriving DecidableEq

/-- `' '.join(c.get('text', '').lower() for c in chunks)`. -/
def joinedText (chunks : List RetChunk) : Str :=
  List.intercalate [' '] (chunks.map (fun c => lowerStr c.text))

/-- `check_keyword_match(query, chunks)`: true when no significant words
exist, otherwise true iff strictly more than half of them occur in the
joined chunk text. -/
def checkKeywordMatch (query : Str) (chunks : List RetChunk) : Bool :=
  let keywords := significantWords query
  if keywords.isEmpty then true
  else
    let found := (keywords.filter (fun kw => strContains (joinedText chunks) kw)).length
    decide ((1:ℚ)/2 < (found : ℚ) / (keywords.length : ℚ))

/-- `has_good_score`: the result list is non-empty and some chunk's score
is at least 0.5. -/
def hasGoodScore (chunks : List RetChunk) : Bool :=
  !chunks.isEmpty && chunks.any (fun c => decide ((1:ℚ)/2 ≤ c.score))

/-- `has_good_results` of `handle_message`: the direct-search results are
accepted (no LLM expansion round) iff this is true. -/
def directAccepts (question : Str) (chunks : List RetChunk) : Bool :=
  hasGoodScore chunks
    && (if chunks.isEmpty then false else checkKeywordMatch question chunks)

/-- The acceptance condition as the claim states it: non-empty results,
some score at or above 0.5, and AT LEAST 50% of the significant words
present across the returned chunks' text. -/
def claimAcceptCond (question : Str) (chunks : List RetChunk) : Prop :=
  chunks ≠ [] ∧ (∃ c ∈ chunks, (1:ℚ)/2 ≤ c.score) ∧
    (significantWords question = [] ∨
      (1:ℚ)/2 ≤ (((significantWords question).filter
          (fun kw => strContains (joinedText chunks) kw)).length : ℚ)
        / ((significantWords question).length : ℚ))

/-- C3 counterexample: a question with exactly 2 significant words of which
exactly 1 occurs in the returned chunk (overlap exactly 50%) and top score
0.9 satisfies the claim's acceptance condition (≥ 50%), yet the code
triggers the expansion round: the code demands strictly more than 50%. -/
theorem escalation_threshold_counterexample :
    claimAcceptCond "термин пример".toList
      [⟨"тут термин встречается".toList, 9/10⟩] ∧
    directAccepts "термин пример".toList
      [⟨"тут термин встречается".toList, 9/10⟩] = false := by
  constructor
  · refine ⟨List.cons_ne_nil _ _, ⟨⟨"тут термин встречается".toList, 9/10⟩,
      List.mem_singleton.mpr rfl, by norm_num⟩, Or.inr ?_⟩
    rw [show (((significantWords "термин пример".toList).filter
        (fun kw => strContains
          (joinedText [⟨"тут термин встречается".toList, 9/10⟩]) kw)).length)
        = 1 from rfl,
      show ((significantWords "термин пример".toList).length) = 2 from rfl]
    norm_num
  · rw [show directAccepts "термин пример".toList
        [⟨"тут термин встречается".toList, 9/10⟩]
        = ((decide ((1:ℚ)/2 ≤ 9/10) || false)
            && decide ((1:ℚ)/2 < ((1:Nat) : ℚ) / ((2:Nat) : ℚ))) from rfl,
      decide_eq_true (show (1:ℚ)/2 ≤ 9/10 by norm_num),
      decide_eq_false (show ¬((1:ℚ)/2 < ((1:Nat) : ℚ) / ((2:Nat) : ℚ)) by
        push_cast
        norm_num)]
    rfl

/-- C3 (amended): the escalation gate accepts the direct-search results
(skipping the LLM expansion round) iff the results are non-empty AND some
result's score is at or above 0.5 AND strictly more than 50% of the
question's significant words (words longer than 4 characters, stop words
removed) occur across the returned chunks' text; otherwise it expands. -/
theorem directAccepts_iff (question : Str) (chunks : List RetChunk) :
    directAccepts question chunks = true ↔
      (chunks ≠ [] ∧ (∃ c ∈ chunks, (1:ℚ)/2 ≤ c.score) ∧
        (significantWords question = [] ∨
          (1:ℚ)/2 < (((significantWords question).filter
              (fun kw => strContains (joinedText chunks) kw)).length : ℚ)
            / ((significantWords question).length : ℚ))) := by
  by_cases hempty : chunks.isEmpty
  · have hnil : chunks = [] := by simpa using hempty
    subst hnil
    simp [directAccepts, hasGoodScore]
  · have hne : chunks ≠ [] := by simpa using hempty
    rw [directAccepts, if_neg (by simp [hempty]), checkKeywordMatch]
    by_cases hkws : (significantWords question).isEmpty
    · have hkwnil : significantWords question = [] := by simpa using hkws
      rw [if_pos (by simp [hkws])]
      simp [hasGoodScore, hempty, hne, hkwnil, List.any_eq_true]
    · have hkwne : ¬significantWords question = [] := by simpa using hkws
      rw [if_neg (by simp [hkws])]
      simp [hasGoodScore, hempty, hne, hkwne, List.any_eq_true]

/- ### Query understanding: `LLMClient.understand_query` (llm.py 79–125)

The oracle call `_call_llm` returns `None` on failure; the reply is then
stripped of a code fence and parsed as JSON. `json.JSONDecodeError` is
caught; a parsed object's `chapters` field defaults to `[]` and its
`search_terms` field defaults to `[query]`, and an empty/falsy term list is
replaced by `[query]`. The modelled reply covers the outcomes the code
distinguishes: oracle failure, an unparsable reply, and a parsed JSON
object with optional `chapters` / `search_terms` fields. -/

/-- The outcome of the oracle call and JSON parse in `understand_query`. -/
inductive OracleReply where
  | failure
  | unparsable
  | parsed (chapters : Option (List Str)) (searchTerms : Option (List Str))
deriving DecidableEq

/-- The dict returned by `understand_query`. -/
structure QueryAnalysis where
  chapters : List Str
  search_terms : List Str
deriving DecidableEq

/-- `LLMClient.understand_query`, given the oracle outcome for the query. -/
def understand_query (reply : OracleReply) (query : Str) : QueryAnalysis :=
  match reply with
  | .failure => ⟨[], [query]⟩
  | .unparsable => ⟨[], [query]⟩
  | .parsed chapters searchTerms =>
      let chapters := chapters.getD []
      let terms := searchTerms.getD [query]
      ⟨chapters, if terms.isEmpty then [query] else terms⟩

/-- C4 counterexample: an oracle reply that parses but carries no search
terms — `{"chapters": ["Глава 1"], "search_terms": []}` — makes the adapter
return the oracle's chapters, not the empty chapter list the claim
promises. -/
theorem understand_query_counterexample :
    understand_query (.parsed (some ["Глава 1".toList]) (some [])) "вопрос".toList
      ≠ ⟨[], ["вопрос".toList]⟩ := by
  decide

/-- C4 (amended): on oracle failure or an unparsable reply,
`understand_query` returns exactly `{search_terms: [query], chapters: []}`;
on a parsed object with no search terms (field missing, or an empty list)
it returns `search_terms = [query]` while keeping the chapters the oracle
proposed; in all modelled cases it returns normally (never raises). -/
theorem understand_query_fallback (query : Str) :
    understand_query .failure query = ⟨[], [query]⟩ ∧
    understand_query .unparsable query = ⟨[], [query]⟩ ∧
    (∀ chapters : Option (List Str),
      understand_query (.parsed chapters (some [])) query
        = ⟨chapters.getD [], [query]⟩) ∧
    (∀ chapters : Option (List Str),
      understand_query (.parsed chapters none) query
        = ⟨chapters.getD [], [query]⟩) := by
  refine ⟨rfl, rfl, fun chapters => rfl, fun chapters => rfl⟩

/- ### Hybrid vector search: `VectorStore` (vector_store.py)

`collection.query` (the embedding oracle + vector index) is modelled by a
`SemOutcome` parameter: either the call raised (`failure`) or it returned
rows `(chunk id, document, metadata, distance)`.  Chunk metadata dicts are
opaque to the search logic and modelled as strings. -/

/-- One entry of `VectorStore.chunks_by_id`. -/
structure VSChunk where
  id : Str
  text : Str
  metadata : Str
deriving DecidableEq

/-- The stop list of `VectorStore._extract_keywords`. -/
def vsStop : List Str :=
  ["что".toList, "как".toList, "где".toList, "когда".toList, "какой".toList,
   "какая".toList, "какие".toList, "каких".toList, "это".toList, "эта".toList,
   "эти".toList, "этот".toList, "там".toList, "тут".toList, "здесь".toList,
   "была".toList, "было".toList, "были".toList, "быть".toList, "есть".toList,
   "нет".toList, "все".toList, "всё".toList, "весь".toList, "вся".toList,
   "они".toList, "она".toList, "оно".toList, "его".toList, "для".toList,
   "при".toList, "про".toList, "над".toList, "под".toList, "между".toList,
   "через".toList, "после".toList, "перед".toList, "можно".toList,
   "нужно".toList, "надо".toList, "помню".toList, "скажи".toList,
   "найди".toList, "покажи".toList, "расскажи".toList, "объясни".toList,
   "искать".toList, "книга".toList, "книге".toList, "глава".toList,
   "главе".toList, "схема".toList, "схемы".toList, "таблица".toList,
   "таблицы".toList, "рисунок".toList, "модель".toList, "модели".toList]

/-- `VectorStore._extract_keywords`: the `[а-яёa-z]+` runs of the lowered
query that are longer than 3 characters and not stop words. -/
def extractKeywords (query : Str) : List Str :=
  (splitRuns (lowerStr query)).filter (fun w => 3 < w.length && !vsStop.contains w)

/-- A result dict of `VectorStore._keyword_search`. -/
structure KWItem where
  id : Str
  text : Str
  metadata : Str
  keyword_matches : Nat
  score : ℚ
deriving DecidableEq

/-- `VectorStore._keyword_search`: count matching keywords per chunk, score
`0.5 + (matches/len(keywords)) * 0.3`, sort by match count descending
(stable), take `n_results`. -/
def keywordSearch (chunks : List VSChunk) (query : Str) (nResults : Nat) : List KWItem :=
  let keywords := extractKeywords query
  if keywords.isEmpty then []
  else
    let found := chunks.filterMap fun c =>
      let m := (keywords.filter (fun kw => strContains (lowerStr c.text) kw)).length
      if 0 < m then
        some ⟨c.id, c.text, c.metadata, m,
          1/2 + ((m : ℚ) / (keywords.length : ℚ)) * (3/10)⟩
      else none
    (sortByKeyDesc (fun item => (item.keyword_matches : ℚ)) found).take nResults

/-- A value of `semantic_found` / `keyword_found` / `combined` in
`VectorStore.search`. -/
structure VSEntry where
  text : Str
  metadata : Str
  score : ℚ
  source : Str
deriving DecidableEq

/-- Outcome of the `collection.query` call (embedding oracle + index):
either the call raised, or it returned rows
`(chunk id, document, metadata, distance)`. -/
inductive SemOutcome where
  | failure
  | ok (rows : List (Str × Str × Str × ℚ))
deriving DecidableEq

/-- Python dict assignment `m[k] = v`: overwrite in place, append if new. -/
def setEntry : List (Str × VSEntry) → Str → VSEntry → List (Str × VSEntry)
  | [], k, v => [(k, v)]
  | p :: rest, k, v => if p.1 == k then (k, v) :: rest else p :: setEntry rest k v

/-- The `semantic_found` dict: rows whose score `1 - distance` reaches
`MIN_RELEVANCE_SCORE`, tagged `"semantic"`. -/
def buildSemanticFound (minRel : ℚ) (rows : List (Str × Str × Str × ℚ)) :
    List (Str × VSEntry) :=
  rows.foldl (fun acc row =>
    if minRel ≤ 1 - row.2.2.2 then
      setEntry acc row.1 ⟨row.2.1, row.2.2.1, 1 - row.2.2.2, "semantic".toList⟩
    else acc) []

/-- The `keyword_found` dict: first occurrence of each id wins, tagged
`"keyword"`. -/
def buildKeywordFound (items : List KWItem) : List (Str × VSEntry) :=
  items.foldl (fun acc item =>
    if (acc.find? (fun p => p.1 == item.id)).isSome then acc
    else acc ++ [(item.id, ⟨item.text, item.metadata, item.score, "keyword".toList⟩)]) []

/-- Dict lookup. -/
def lookupEntry (m : List (Str × VSEntry)) (k : Str) : Option VSEntry :=
  (m.find? (fun p => p.1 == k)).map Prod.snd

/-- The merge step of `VectorStore.search` (vector_store.py 268–281): for
each id of `semantic_found ∪ keyword_found`, a doubly-found chunk keeps its
semantic entry with score `min(1.0, score + 0.2)` and source `"both"`;
otherwise the single entry is kept.  (Python iterates the id set in
unspecified order; a fixed enumeration is chosen here.) -/
def combineFound (semanticFound keywordFound : List (Str × VSEntry)) : List VSEntry :=
  let allIds := (semanticFound.map Prod.fst ++ keywordFound.map Prod.fst).dedup
  allIds.filterMap fun cid =>
    match lookupEntry semanticFound cid, lookupEntry keywordFound cid with
    | some e, some _ => some { e with score := min 1 (e.score + 1/5), source := "both".toList }
    | some e, none => some e
    | none, some e => some e
    | none, none => none

/-- `VectorStore.search`: empty collection short-circuits; a failed
semantic query falls back to keyword-only search (hybrid mode) or to no
results; otherwise the two paths are merged, sorted by score descending
and truncated.  The keyword-only fallback returns the raw
`_keyword_search` dicts (left: merged entries, right: keyword items). -/
def vsSearch (hybrid : Bool) (minRel : ℚ) (collectionCount : Nat)
    (chunks : List VSChunk) (semOutcome : SemOutcome) (query : Str)
    (nResults : Nat) : List VSEntry ⊕ List KWItem :=
  if collectionCount = 0 then .inl []
  else
    match semOutcome with
    | .failure => if hybrid then .inr (keywordSearch chunks query nResults) else .inl []
    | .ok rows =>
        let semanticFound := buildSemanticFound minRel rows
        if !hybrid then
          .inl ((sortByKeyDesc VSEntry.score (semanticFound.map Prod.snd)).take nResults)
        else
          let keywordFound := buildKeywordFound (keywordSearch chunks query (nResults * 2))
          .inl ((sortByKeyDesc VSEntry.score
            (combineFound semanticFound keywordFound)).take nResults)

/-- C5: in the hybrid merge of `VectorStore.search` (`combineFound`), every
chunk id present in both the semantic and the keyword dict contributes its
semantic entry with score `min(1.0, semantic score + 0.2)`, tagged
`"both"`. -/
theorem hybrid_merge_boost (semanticFound keywordFound : List (Str × VSEntry))
    (cid : Str) (e e' : VSEntry)
    (hsem : lookupEntry semanticFound cid = some e)
    (hkw : lookupEntry keywordFound cid = some e') :
    { e with score := min 1 (e.score + 1/5), source := "both".toList }
      ∈ combineFound semanticFound keywordFound := by
  have hmem : cid ∈ (semanticFound.map Prod.fst ++ keywordFound.map Prod.fst).dedup := by
    rw [List.mem_dedup, List.mem_append]
    left
    obtain ⟨p0, hfind, hp0⟩ := Option.map_eq_some'.mp hsem
    have hpmem : p0 ∈ semanticFound := List.mem_of_find?_eq_some hfind
    have hpkey : p0.1 = cid := by simpa using List.find?_some hfind
    exact List.mem_map.mpr ⟨p0, hpmem, hpkey⟩
  refine List.mem_filterMap.mpr ⟨cid, hmem, ?_⟩
  rw [hsem, hkw]

/-- Concrete semantic entry of score 0.7 for chunk `"x"`. -/
def semEntryX : VSEntry := ⟨"doc".toList, "m".toList, 7/10, "semantic".toList⟩

/-- Concrete keyword entry of score 0.6 for chunk `"x"`. -/
def kwEntryX : VSEntry := ⟨"doc".toList, "m".toList, 6/10, "keyword".toList⟩

theorem hybrid_merge_boost_witness :
    lookupEntry [("x".toList, semEntryX)] "x".toList = some semEntryX ∧
    lookupEntry [("x".toList, kwEntryX)] "x".toList = some kwEntryX ∧
    min (1:ℚ) (semEntryX.score + 1/5) = 9/10 ∧
    { semEntryX with score := min 1 (semEntryX.score + 1/5), source := "both".toList }
      ∈ combineFound [("x".toList, semEntryX)] [("x".toList, kwEntryX)] :=
  ⟨rfl, rfl,
   by rw [show semEntryX.score = 7/10 from rfl, min_def]; norm_num,
   hybrid_merge_boost [("x".toList, semEntryX)] [("x".toList, kwEntryX)]
     "x".toList semEntryX kwEntryX rfl rfl⟩

/- ### `SemanticChapterSearcher` (tree_search.py 389–549)

The Voyage embedding call is modelled as an `Except Unit (List ℚ)`
parameter; the source wraps it in no try/except, so its failure propagates
out of `search` (modelled as the `.error` return).  Cosine similarity uses
a floating-point square root, which has no exact rational counterpart; the
similarity kernel is therefore a function parameter `sim`, keeping the
control flow around it faithful. -/

/-- One chapter record of the embeddings file. -/
structure EmbChapter where
  id : Str
  book_title : Str
  chapter_title : Str
  embedding : List ℚ
deriving DecidableEq

/-- One similarity row built by `_find_similar_chapters`. -/
structure SimChapter where
  id : Str
  book_title : Str
  chapter_title : Str
  similarity : ℚ
deriving DecidableEq

/-- `SemanticChapterSearcher._find_similar_chapters`: similarity of every
chapter with a non-empty embedding, sorted descending, truncated. -/
def findSimilarChapters (sim : List ℚ → List ℚ → ℚ) (chapters : List EmbChapter)
    (qEmb : List ℚ) (topK : Nat) : List SimChapter :=
  if chapters.isEmpty then []
  else
    let sims := chapters.filterMap fun ch =>
      if ch.embedding.isEmpty then none
      else some ⟨ch.id, ch.book_title, ch.chapter_title, sim qEmb ch.embedding⟩
    (sortByKeyDesc SimChapter.similarity sims).take topK

/-- The stop list of `_keyword_search_in_chapters`. -/
def scsStop : List Str :=
  ["что".toList, "как".toList, "где".toList, "когда".toList, "почему".toList,
   "какой".toList, "какая".toList, "какие".toList, "это".toList,
   "такое".toList, "для".toList, "при".toList, "или".toList, "если".toList,
   "чем".toList, "между".toList, "помню".toList, "была".toList,
   "скажи".toList, "искать".toList, "найти".toList, "покажи".toList,
   "расскажи".toList, "можно".toList, "подробнее".toList,
   "расшифровать".toList, "модель".toList, "про".toList,
   "отличается".toList, "отличия".toList, "отличие".toList,
   "разница".toList, "различие".toList, "различия".toList,
   "сравни".toList, "сравнить".toList, "сравнение".toList,
   "похоже".toList, "похожи".toList, "общего".toList]

/-- Keywords of `_keyword_search_in_chapters`: lowered `[а-яёa-z]+` runs of
the query, stop words removed and length above 2. -/
def scsKeywords (query : Str) : List Str :=
  (splitRuns (lowerStr query)).filter (fun w => !scsStop.contains w && 2 < w.length)

/-- One keyword's contribution in `_keyword_search_in_chapters`:
`+count*2.0` for text occurrences, `+5` for a section-title hit. -/
def scsKwStep (textLower sectionLower : Str) (score : ℚ) (kw : Str) : ℚ :=
  let s1 := if strContains textLower kw then score + (occCount textLower kw : ℚ) * 2 else score
  if strContains sectionLower kw then s1 + 5 else s1

/-- The chunk score of `_keyword_search_in_chapters`. -/
def scsChunkScore (keywords : List Str) (c : ChunkRec) : ℚ :=
  keywords.foldl (scsKwStep (lowerStr c.text) (lowerStr c.section_title)) 0

/-- `_keyword_search_in_chapters`: score the chunks of the given chapters,
keep the positive ones, sort by score descending, truncate. -/
def keywordSearchInChapters (tree : List ChunkRec) (chapterIds : List Str)
    (query : Str) (topChunks : Nat) : List SearchResult :=
  let keywords := scsKeywords query
  let results := tree.filterMap fun c =>
    if chapterIds.contains c.chapter_id then
      if 0 < scsChunkScore keywords c then
        some (mkSearchResult c (scsChunkScore keywords c))
      else none
    else none
  (sortByKeyDesc SearchResult.score results).take topChunks

/-- `ContextTree.get_chapter_chunks`: the chunks of one chapter, in index
order. -/
def getChapterChunks (tree : List ChunkRec) (chId : Str) : List ChunkRec :=
  tree.filter (fun c => c.chapter_id == chId)

/-- The fallback loop of `SemanticChapterSearcher.search`: first two chunks
of each selected chapter with placeholder score 1.0, stopping once
`top_chunks` results are collected. -/
def fallbackLoop (tree : List ChunkRec) (topChunks : Nat) :
    List Str → List SearchResult → List SearchResult
  | [], results => results
  | chId :: rest, results =>
      let results := results
        ++ ((getChapterChunks tree chId).take 2).map (fun c => mkSearchResult c 1)
      if topChunks ≤ results.length then results
      else fallbackLoop tree topChunks rest results

/-- `SemanticChapterSearcher.search`: empty embeddings short-circuit to no
results; then the query embedding is obtained (its failure propagates —
the source has no try/except around the Voyage call); similar chapters are
selected by embedding similarity and their chunks ranked by keywords, with
the first-chunks fallback when the keyword step finds nothing. -/
def semChapterSearch (tree : List ChunkRec) (embChapters : List EmbChapter)
    (sim : List ℚ → List ℚ → ℚ) (embedOutcome : Except Unit (List ℚ))
    (query : Str) (topChapters topChunks : Nat) : Except Unit (List SearchResult) :=
  if embChapters.isEmpty then .ok []
  else
    match embedOutcome with
    | .error e => .error e
    | .ok qEmb =>
        let similar := findSimilarChapters sim embChapters qEmb topChapters
        let chapterIds := similar.map SimChapter.id
        let results := keywordSearchInChapters tree chapterIds query topChunks
        let results := if results.isEmpty then fallbackLoop tree topChunks chapterIds []
          else results
        .ok (results.take topChunks)

/-- C6 counterexample: `SemanticChapterSearcher.search` with loaded
embeddings and a failing embedding oracle propagates the error to its
caller instead of falling back to keyword-only search — the claim's
"never crashes" does not hold for this cited search. -/
theorem embed_error_propagates_counterexample :
    semChapterSearch [] [⟨"ch1".toList, "b".toList, "t".toList, [1]⟩]
      (fun _ _ => 0) (.error ()) "вопрос".toList 4 6 = .error () := rfl

/-- C6 (amended): a failing embedding call inside `VectorStore.search` is
caught: with hybrid search enabled the search returns the keyword-only
results over the full corpus, with hybrid search disabled it returns no
results; `SemanticChapterSearcher.search`, by contrast, propagates the
embedding-oracle error to its caller whenever embeddings are loaded. -/
theorem embed_failure_behavior :
    (∀ (hybrid : Bool) (minRel : ℚ) (count : Nat) (chunks : List VSChunk)
        (query : Str) (n : Nat), count ≠ 0 →
      vsSearch hybrid minRel count chunks .failure query n
        = (if hybrid then .inr (keywordSearch chunks query n) else .inl [])) ∧
    (∀ (tree : List ChunkRec) (embChapters : List EmbChapter)
        (sim : List ℚ → List ℚ → ℚ) (query : Str) (tc tn : Nat),
      embChapters ≠ [] →
      semChapterSearch tree embChapters sim (.error ()) query tc tn = .error ()) := by
  constructor
  · intro hybrid minRel count chunks query n hcount
    rw [vsSearch, if_neg hcount]
  · intro tree embChapters sim query tc tn hne
    rw [semChapterSearch, if_neg (by simpa using hne)]

theorem embed_failure_behavior_witness :
    vsSearch true (3/20) 1 [⟨"c".toList, "общий текст".toList, "m".toList⟩]
        .failure "общий вопрос".toList 3
      = .inr (keywordSearch [⟨"c".toList, "общий текст".toList, "m".toList⟩]
          "общий вопрос".toList 3) ∧
    semChapterSearch [] [⟨"ch".toList, "b".toList, "t".toList, [1]⟩]
        (fun _ _ => 0) (.error ()) "вопрос".toList 4 6 = .error () := by
  constructor
  · have h := embed_failure_behavior.1 true (3/20) 1
      [⟨"c".toList, "общий текст".toList, "m".toList⟩] "общий вопрос".toList 3
      (by decide)
    simpa using h
  · exact embed_failure_behavior.2 [] [⟨"ch".toList, "b".toList, "t".toList, [1]⟩]
      (fun _ _ => 0) "вопрос".toList 4 6 (by decide)
